import Mathlib

/-!
# Verification of the AiCupid backend turn-lifecycle core

A shallow embedding of the repository's turn-lifecycle / activity-detection
state machine and event-dispatch engine, with proofs of the specified
properties.

Embedded source files:
* `db.ts`            — Turn Recorder (`addMessage`, `getMessages`,
                       `getUserMessageCount`): messages live in one
                       append-only table; reads sort by timestamp
                       descending with a limit.  Each insert's `Date.now()`
                       reading is an explicit argument (real time only
                       guarantees the readings are nondecreasing, and
                       same-millisecond inserts share a timestamp);
                       `ORDER BY timestamp DESC` is modelled by its
                       contract — a timestamp-sorted permutation of the
                       rows, tie order unspecified — with an executable
                       insertion sort as one admissible refinement.
* `ws-handler.ts`    — Connection Orchestrator: `calcPCMRMS`, the manual
                       VAD state machine in the `audio_chunk` /
                       `force_commit` handlers, the silence-timer callback,
                       the audio-mode turn-completion reset, and
                       `saveTurnAndDispatchEvents`.
* `events/engine.ts` — `EventEngine.register` / `EventEngine.processTurn`
                       (`Promise.allSettled` is modelled by every trigger
                       producing an `Except` settled outcome).
* `events/quiz-rule.ts`, `events/quiz-agent.ts` — the two quiz triggers
                       (LLM calls are modelled as oracle parameters).
* `gemini.ts`        — `generateQuiz` fence stripping and parse-failure
                       recovery (`JSON.parse` is modelled as an abstract
                       parser parameter).
* `config.ts`        — the `QUIZ` constants.
-/

/-! ## Shared data types (`types.ts`) -/

/-- `role TEXT CHECK(role IN ('user','assistant'))` — message roles. -/
inductive Role
  | user
  | assistant
deriving DecidableEq

/-- A quiz question, `types.ts` `QuizQuestion`. -/
structure QuizQuestion where
  id : String
  question : String
  answers : List String
  correctIndex : Nat
  timeLimit : Nat
deriving DecidableEq

/-- A message as returned by the store (`SELECT role, content, timestamp`). -/
structure Message where
  role : Role
  content : String
  timestamp : Nat
deriving DecidableEq

/-- `events/types.ts` `MCEvent` — the tagged event union (currently one
variant, a quiz with its question payload). -/
inductive MCEvent
  | quiz (payload : List QuizQuestion)
deriving DecidableEq

/-- The question payload of an event. -/
def MCEvent.payload : MCEvent → List QuizQuestion
  | .quiz qs => qs

/-- `events/types.ts` `TurnContext` — per-turn context handed to triggers. -/
structure TurnContext where
  sessionId : String
  userMessage : String
  aiMessage : String
  messageCount : Nat
  history : List Message
deriving DecidableEq

/-! ## Configuration (`config.ts`, `QUIZ`) -/

/-- `QUIZ.TRIGGER_EVERY_N_MESSAGES` — quiz every N user messages. -/
def TRIGGER_EVERY_N_MESSAGES : Nat := 5

/-- `QUIZ.HISTORY_WINDOW` — recent messages fetched for the turn context. -/
def HISTORY_WINDOW : Nat := 20

/-! ## Turn Recorder (`db.ts`)

One `messages` table shared by all sessions.  `Date.now()` at the moment
of each insert is passed as an explicit argument: the real clock has
millisecond resolution, so all a caller may assume is that successive
readings are nondecreasing — back-to-back inserts may share a timestamp. -/

/-- A row of the `messages` table. -/
structure MsgRow where
  sessionId : String
  role : Role
  content : String
  timestamp : Nat
deriving DecidableEq

/-- The store: the `messages` table rows in insertion (rowid) order. -/
structure DB where
  rows : List MsgRow
deriving DecidableEq

/-- `addMessage` — `INSERT INTO messages (session_id, role, content,
timestamp) VALUES (?, ?, ?, Date.now())`; `now` is the `Date.now()`
reading at the moment of this call. -/
def addMessage (db : DB) (sessionId : String) (role : Role) (content : String)
    (now : Nat) : DB :=
  { rows := db.rows ++ [⟨sessionId, role, content, now⟩] }

/-- Insert a row into a timestamp-descending list (kept in order). -/
def insertTsDesc (x : MsgRow) : List MsgRow → List MsgRow
  | [] => [x]
  | y :: ys => if y.timestamp ≤ x.timestamp then x :: y :: ys else y :: insertTsDesc x ys

/-- `ORDER BY timestamp DESC` — sort rows by timestamp descending. -/
def sortByTsDesc : List MsgRow → List MsgRow
  | [] => []
  | x :: xs => insertTsDesc x (sortByTsDesc xs)

/-- Project a table row to the selected `Message` columns. -/
def rowMsg (r : MsgRow) : Message :=
  ⟨r.role, r.content, r.timestamp⟩

/-- `getMessages` — `SELECT role, content, timestamp FROM messages WHERE
session_id = ? ORDER BY timestamp DESC LIMIT ?`. -/
def getMessages (db : DB) (sessionId : String) (limit : Nat) : List Message :=
  ((sortByTsDesc (db.rows.filter (fun r => r.sessionId == sessionId))).take limit).map rowMsg

/-- `getUserMessageCount` — `SELECT COUNT(*) FROM messages WHERE
session_id = ? AND role = 'user'`. -/
def getUserMessageCount (db : DB) (sessionId : String) : Nat :=
  (db.rows.filter (fun r => r.sessionId == sessionId && r.role == Role.user)).length

/-- Append a batch of `(role, content, Date.now() reading)` messages for
one session. -/
def appendMessages (db : DB) (sessionId : String) : List (Role × String × Nat) → DB
  | [] => db
  | (r, c, t) :: rest => appendMessages (addMessage db sessionId r c t) sessionId rest

/-- The rows that a batch append produces. -/
def mkRows (sessionId : String) (msgs : List (Role × String × Nat)) : List MsgRow :=
  msgs.map (fun m => ⟨sessionId, m.1, m.2.1, m.2.2⟩)

/-- `ORDER BY timestamp DESC` output shape: timestamps nonincreasing. -/
def sortedTsDesc (l : List MsgRow) : Prop :=
  l.Pairwise (fun a b => b.timestamp ≤ a.timestamp)

/-- The contract of the `getMessages` query — `SELECT … WHERE session_id =
? ORDER BY timestamp DESC LIMIT ?`: SQLite guarantees only that the result
is built from SOME permutation of the session's rows that is sorted by
timestamp descending (the relative order of rows with equal timestamps is
unspecified), truncated to the limit.  `out` is an output the store may
return. -/
def sqlReadAdmissible (db : DB) (sessionId : String) (limit : Nat)
    (out : List Message) : Prop :=
  ∃ perm : List MsgRow,
    perm.Perm (db.rows.filter (fun r => r.sessionId == sessionId)) ∧
    sortedTsDesc perm ∧
    out = (perm.take limit).map rowMsg

/-! ## Energy Detector (`ws-handler.ts`, `calcPCMRMS`) -/

/-- `buf.readInt16LE` — decode one signed little-endian 16-bit sample from
two bytes. -/
def readInt16LE (lo hi : Nat) : Int :=
  let v : Nat := lo + 256 * hi
  if v < 32768 then (v : Int) else (v : Int) - 65536

/-- Decode a byte buffer into its complete 16-bit samples (a trailing odd
byte is ignored, as `Math.floor(buf.length / 2)` does). -/
def decodeInt16LE : List Nat → List Int
  | lo :: hi :: rest => readInt16LE lo hi :: decodeInt16LE rest
  | _ => []

/-- The `sum += s * s` loop of `calcPCMRMS` over the sample pairs. -/
def sumSquaresBytes : List Nat → Int
  | lo :: hi :: rest => readInt16LE lo hi * readInt16LE lo hi + sumSquaresBytes rest
  | _ => 0

/-- `calcPCMRMS` — `count = floor(len/2)`; `0` if no complete sample, else
`Math.sqrt(sum / count)`. -/
noncomputable def calcPCMRMS (buf : List Nat) : ℝ :=
  if buf.length / 2 = 0 then 0
  else Real.sqrt (((sumSquaresBytes buf : Int) : ℝ) / ((buf.length / 2 : Nat) : ℝ))

/-- Modelled from the spec's words (§4.1): the root-mean-square of a list
of sample values — square root of the mean of the squares, `0` for zero
samples.  Used as the specification side of the refinement for `calcPCMRMS`. -/
noncomputable def specRMS (samples : List Int) : ℝ :=
  if samples.length = 0 then 0
  else Real.sqrt ((((samples.map (fun s => s * s)).sum : Int) : ℝ) / ((samples.length : Nat) : ℝ))

/-- `SPEECH_THRESHOLD` (`ws-handler.ts`). -/
def SPEECH_THRESHOLD : Nat := 400

/-- The `energy > SPEECH_THRESHOLD` test of the `audio_chunk` handler,
expressed over the integers (`RMS > 400  ↔  sum > 400² · count`); the
lemma `highEnergy_iff_rms` proves it equivalent to the real comparison. -/
def highEnergy (buf : List Nat) : Bool :=
  decide ((400 * 400 : Int) * ((buf.length / 2 : Nat) : Int) < sumSquaresBytes buf)

section EnergyLemmas

lemma decodeInt16LE_length : ∀ buf : List Nat, (decodeInt16LE buf).length = buf.length / 2
  | [] => rfl
  | [_] => by simp [decodeInt16LE]
  | lo :: hi :: rest => by
      simp only [decodeInt16LE, List.length_cons, decodeInt16LE_length rest]
      omega

lemma sumSquaresBytes_eq : ∀ buf : List Nat,
    sumSquaresBytes buf = ((decodeInt16LE buf).map (fun s => s * s)).sum
  | [] => rfl
  | [_] => by simp [decodeInt16LE, sumSquaresBytes]
  | lo :: hi :: rest => by
      simp only [sumSquaresBytes, decodeInt16LE, List.map_cons, List.sum_cons,
        sumSquaresBytes_eq rest]

lemma sumSquaresBytes_nonneg : ∀ buf : List Nat, 0 ≤ sumSquaresBytes buf
  | [] => le_refl 0
  | [_] => le_refl 0
  | lo :: hi :: rest => by
      have h1 : 0 ≤ readInt16LE lo hi * readInt16LE lo hi := mul_self_nonneg _
      have h2 := sumSquaresBytes_nonneg rest
      simp only [sumSquaresBytes]
      omega

/-- The integer threshold test used in the state machine agrees with the
real comparison `calcPCMRMS buf > SPEECH_THRESHOLD` of the source. -/
lemma highEnergy_iff_rms (buf : List Nat) :
    highEnergy buf = true ↔ (SPEECH_THRESHOLD : ℝ) < calcPCMRMS buf := by
  by_cases hc : buf.length / 2 = 0
  · have hsum : sumSquaresBytes buf = 0 := by
      match buf, hc with
      | [], _ => rfl
      | [_], _ => rfl
      | lo :: hi :: rest, h => simp at h; omega
    simp [highEnergy, calcPCMRMS, hc, hsum, SPEECH_THRESHOLD]
  · have hcpos : 0 < (buf.length / 2 : Nat) := Nat.pos_of_ne_zero hc
    simp only [highEnergy, calcPCMRMS, hc, if_false, decide_eq_true_eq, SPEECH_THRESHOLD]
    generalize buf.length / 2 = c at hcpos ⊢
    generalize sumSquaresBytes buf = S
    have hcR : (0 : ℝ) < (c : ℝ) := by exact_mod_cast hcpos
    rw [show ((400 : Nat) : ℝ) = (400 : ℝ) by norm_num]
    rw [Real.lt_sqrt (by norm_num : (0:ℝ) ≤ 400), lt_div_iff₀ hcR]
    constructor
    · intro h
      have h' : ((400 * 400 * (c : Int) : Int) : ℝ) < ((S : Int) : ℝ) := by exact_mod_cast h
      calc (400 : ℝ) ^ 2 * (c : ℝ) = ((400 * 400 * (c : Int) : Int) : ℝ) := by push_cast; ring
        _ < ((S : Int) : ℝ) := h'
    · intro h
      have h' : ((400 * 400 * (c : Int) : Int) : ℝ) < ((S : Int) : ℝ) := by
        calc ((400 * 400 * (c : Int) : Int) : ℝ) = (400 : ℝ) ^ 2 * (c : ℝ) := by push_cast; ring
          _ < ((S : Int) : ℝ) := h
      exact_mod_cast h'

end EnergyLemmas

/-! ## Connection Orchestrator — manual VAD state machine (`ws-handler.ts`)

Per-connection mutable state: `isActivityActive`, `silenceTimer` (pending
or not) and whether a provider session is open (`geminiSession !== null`).
The steps are the events the claims quantify over: an inbound
`audio_chunk`, the silence-timer callback firing, a `force_commit`
command, and the provider turn-completion callback (the `done` branch of
`liveCallbacks.onAudioChunk`).  Session open/close is not in this step
alphabet; no step changes `sessionOpen`. -/

/-- A signal or audio frame sent to the provider session. -/
inductive Signal
  | activityStart
  | activityEnd
  | audioForward (data : List Nat)
deriving DecidableEq

/-- One step of the per-connection handler. -/
inductive ConnStep
  | frame (buf : List Nat)
  | timerFire
  | forceCommit
  | turnComplete
deriving DecidableEq

/-- Per-connection mutable state of `handleConnection`. -/
structure ConnState where
  isActivityActive : Bool
  silenceTimer : Bool
  sessionOpen : Bool
deriving DecidableEq

/-- State after `init` succeeded: inactive, no pending timer, session open. -/
def initConn : ConnState := ⟨false, false, true⟩

/-- One handler step: the new state and the signals sent to the provider
session, mirroring the `audio_chunk` / `force_commit` cases, the
`setTimeout` callback, and the turn-completion reset. -/
def connStep (s : ConnState) (st : ConnStep) : ConnState × List Signal :=
  match st with
  | .frame buf =>
      if s.sessionOpen = false then (s, [])
      else if highEnergy buf then
        if s.isActivityActive then
          ({ s with silenceTimer := true }, [Signal.audioForward buf])
        else
          ({ s with isActivityActive := true, silenceTimer := true },
            [Signal.activityStart, Signal.audioForward buf])
      else
        if s.isActivityActive then (s, [Signal.audioForward buf]) else (s, [])
  | .timerFire =>
      if s.silenceTimer = false then (s, [])
      else if s.sessionOpen && s.isActivityActive then
        ({ s with isActivityActive := false, silenceTimer := false }, [Signal.activityEnd])
      else ({ s with silenceTimer := false }, [])
  | .forceCommit =>
      if s.sessionOpen = false then (s, [])
      else if s.isActivityActive then
        ({ s with isActivityActive := false, silenceTimer := false }, [Signal.activityEnd])
      else ({ s with silenceTimer := false }, [])
  | .turnComplete =>
      ({ s with isActivityActive := false, silenceTimer := false }, [])

/-- Run a sequence of steps, collecting all signals sent to the provider. -/
def runSignals (s : ConnState) : List ConnStep → List Signal
  | [] => []
  | st :: rest => (connStep s st).2 ++ runSignals (connStep s st).1 rest

/-- An activity event: a start or end signal, or the activity reset the
turn-completion callback performs without sending a signal. -/
inductive ActEvent
  | aStart
  | aEnd
  | aReset
deriving DecidableEq

/-- Project a signal trace onto its activity start/end signals. -/
def seProj : List Signal → List ActEvent
  | [] => []
  | Signal.activityStart :: rest => ActEvent.aStart :: seProj rest
  | Signal.activityEnd :: rest => ActEvent.aEnd :: seProj rest
  | Signal.audioForward _ :: rest => seProj rest

/-- The reset marker contributed by a step (only turn completion resets). -/
def resetMark : ConnStep → List ActEvent
  | ConnStep.turnComplete => [ActEvent.aReset]
  | _ => []

/-- Run a sequence of steps, collecting activity start/end signals
interleaved with the turn-completion reset markers. -/
def runAnnotated (s : ConnState) : List ConnStep → List ActEvent
  | [] => []
  | st :: rest =>
      seProj (connStep s st).2 ++ resetMark st ++ runAnnotated (connStep s st).1 rest

/-- Drop the reset markers, leaving only the signals actually sent. -/
def removeResets : List ActEvent → List ActEvent
  | [] => []
  | ActEvent.aReset :: rest => removeResets rest
  | e :: rest => e :: removeResets rest

/-- `true` iff no two adjacent events of the list are both `aStart`. -/
def noConsecStarts : List ActEvent → Bool
  | [] => true
  | [_] => true
  | a :: b :: rest =>
      if a = ActEvent.aStart ∧ b = ActEvent.aStart then false
      else noConsecStarts (b :: rest)

section ActivityLemmas

lemma noConsecStarts_cons_ne (e : ActEvent) (l : List ActEvent)
    (he : e ≠ ActEvent.aStart) (hl : noConsecStarts l = true) :
    noConsecStarts (e :: l) = true := by
  cases l with
  | nil => rfl
  | cons b rest =>
      simp only [noConsecStarts]
      rw [if_neg]
      · exact hl
      · rintro ⟨h1, -⟩; exact he h1

lemma noConsecStarts_cons_start (l : List ActEvent)
    (hh : l.head? ≠ some ActEvent.aStart) (hl : noConsecStarts l = true) :
    noConsecStarts (ActEvent.aStart :: l) = true := by
  cases l with
  | nil => rfl
  | cons b rest =>
      simp only [noConsecStarts]
      rw [if_neg]
      · exact hl
      · rintro ⟨-, h2⟩
        simp only [List.head?] at hh
        exact hh (by rw [h2])

lemma seProj_append (l1 l2 : List Signal) : seProj (l1 ++ l2) = seProj l1 ++ seProj l2 := by
  induction l1 with
  | nil => rfl
  | cons a rest ih => cases a <;> simp [seProj, ih]

lemma removeResets_append (l1 l2 : List ActEvent) :
    removeResets (l1 ++ l2) = removeResets l1 ++ removeResets l2 := by
  induction l1 with
  | nil => rfl
  | cons a rest ih => cases a <;> simp [removeResets, ih]

lemma removeResets_seProj (l : List Signal) : removeResets (seProj l) = seProj l := by
  induction l with
  | nil => rfl
  | cons a rest ih => cases a <;> simp [seProj, removeResets, ih]

/-- The annotated trace with resets removed is exactly the start/end
projection of the true signal trace. -/
lemma removeResets_runAnnotated : ∀ (steps : List ConnStep) (s : ConnState),
    removeResets (runAnnotated s steps) = seProj (runSignals s steps) := by
  intro steps
  induction steps with
  | nil => intro s; rfl
  | cons st rest ih =>
      intro s
      simp only [runAnnotated, runSignals, seProj_append, removeResets_append,
        removeResets_seProj, ih]
      cases st <;> simp [resetMark, removeResets]

/-- Core invariant: from any state, the annotated activity trace has no
two adjacent start events, and if the state is currently active the trace
cannot begin with a start. -/
lemma runAnnotated_sound : ∀ (steps : List ConnStep) (s : ConnState),
    noConsecStarts (runAnnotated s steps) = true ∧
      (s.isActivityActive = true → (runAnnotated s steps).head? ≠ some ActEvent.aStart) := by
  intro steps
  induction steps with
  | nil => intro s; exact ⟨rfl, fun _ => by simp [runAnnotated]⟩
  | cons st rest ih =>
      intro s
      obtain ⟨act, tim, ses⟩ := s
      cases st with
      | frame buf =>
          cases hses : ses with
          | false =>
              -- no session: the frame is dropped entirely
              constructor
              · simpa [runAnnotated, connStep, seProj, resetMark] using (ih ⟨act, tim, false⟩).1
              · intro ha
                simpa [runAnnotated, connStep, seProj, resetMark] using
                  (ih ⟨act, tim, false⟩).2 ha
          | true =>
              cases hE : highEnergy buf with
              | false =>
                  cases act with
                  | false =>
                      constructor
                      · simpa [runAnnotated, connStep, hE, seProj, resetMark] using
                          (ih ⟨false, tim, true⟩).1
                      · intro ha; exact absurd ha (by simp)
                  | true =>
                      constructor
                      · simpa [runAnnotated, connStep, hE, seProj, resetMark] using
                          (ih ⟨true, tim, true⟩).1
                      · intro _
                        simpa [runAnnotated, connStep, hE, seProj, resetMark] using
                          (ih ⟨true, tim, true⟩).2 rfl
              | true =>
                  cases act with
                  | false =>
                      -- speech starts: an `aStart` is emitted, state becomes active
                      constructor
                      · have h1 := (ih ⟨true, true, true⟩).1
                        have h2 := (ih ⟨true, true, true⟩).2 rfl
                        simp only [runAnnotated, connStep, hE, seProj, resetMark]
                        simp only [Bool.false_eq_true, if_false, if_pos rfl]
                        simp only [seProj, List.append_nil, List.nil_append]
                        exact noConsecStarts_cons_start _ h2 h1
                      · intro ha; exact absurd ha (by simp)
                  | true =>
                      -- already active: only the frame is forwarded
                      constructor
                      · simpa [runAnnotated, connStep, hE, seProj, resetMark] using
                          (ih ⟨true, true, true⟩).1
                      · intro _
                        simpa [runAnnotated, connStep, hE, seProj, resetMark] using
                          (ih ⟨true, true, true⟩).2 rfl
      | timerFire =>
          cases tim with
          | false =>
              constructor
              · simpa [runAnnotated, connStep, seProj, resetMark] using (ih ⟨act, false, ses⟩).1
              · intro ha
                simpa [runAnnotated, connStep, seProj, resetMark] using
                  (ih ⟨act, false, ses⟩).2 ha
          | true =>
              cases hg : ses && act with
              | false =>
                  constructor
                  · simpa [runAnnotated, connStep, hg, seProj, resetMark] using
                      (ih ⟨act, false, ses⟩).1
                  · intro ha
                    simpa [runAnnotated, connStep, hg, seProj, resetMark] using
                      (ih ⟨act, false, ses⟩).2 ha
              | true =>
                  -- silence timeout fires: an `aEnd` is emitted, state inactive
                  constructor
                  · have h1 := (ih ⟨false, false, ses⟩).1
                    simp only [runAnnotated, connStep, hg, seProj, resetMark]
                    simp only [Bool.not_eq_true, if_neg (by simp : ¬(true = false)), if_pos rfl]
                    simp only [seProj, List.append_nil, List.nil_append]
                    exact noConsecStarts_cons_ne _ _ (by simp) h1
                  · intro _
                    simp [runAnnotated, connStep, hg, seProj, resetMark]
      | forceCommit =>
          cases hses : ses with
          | false =>
              constructor
              · simpa [runAnnotated, connStep, seProj, resetMark] using (ih ⟨act, tim, false⟩).1
              · intro ha
                simpa [runAnnotated, connStep, seProj, resetMark] using
                  (ih ⟨act, tim, false⟩).2 ha
          | true =>
              cases act with
              | false =>
                  constructor
                  · simpa [runAnnotated, connStep, seProj, resetMark] using
                      (ih ⟨false, false, true⟩).1
                  · intro ha; exact absurd ha (by simp)
              | true =>
                  -- force commit while active: an `aEnd` is emitted
                  constructor
                  · have h1 := (ih ⟨false, false, true⟩).1
                    simp only [runAnnotated, connStep, seProj, resetMark]
                    simp only [Bool.not_eq_true, if_neg (by simp : ¬(true = false)), if_pos rfl]
                    simp only [seProj, List.append_nil, List.nil_append]
                    exact noConsecStarts_cons_ne _ _ (by simp) h1
                  · intro _
                    simp [runAnnotated, connStep, seProj, resetMark]
      | turnComplete =>
          constructor
          · have h1 := (ih ⟨false, false, ses⟩).1
            simp only [runAnnotated, connStep, seProj, resetMark, List.nil_append]
            exact noConsecStarts_cons_ne _ _ (by simp) h1
          · intro _
            simp [runAnnotated, connStep, seProj, resetMark]

end ActivityLemmas

/-! ## Event Engine (`events/engine.ts`)

A trigger's `onTurn(ctx)` is a promise; `Promise.allSettled` collects one
settled outcome per trigger.  A registered trigger is therefore modelled
as a function from the turn context to its settled outcome — fulfilled
with an optional event, or rejected with a reason. -/

/-- A registered trigger: turn context to settled `onTurn` outcome. -/
def TriggerFun : Type := TurnContext → Except String (Option MCEvent)

/-- `EventEngine.register` — push the trigger onto the ordered registry. -/
def register (triggers : List TriggerFun) (t : TriggerFun) : List TriggerFun :=
  triggers ++ [t]

/-- The collection loop of `processTurn`: keep the value of every
fulfilled non-null result, skip rejections and nulls. -/
def collectFulfilled : List (Except String (Option MCEvent)) → List MCEvent
  | [] => []
  | Except.ok (some e) :: rest => e :: collectFulfilled rest
  | Except.ok none :: rest => collectFulfilled rest
  | Except.error _ :: rest => collectFulfilled rest

/-- `EventEngine.processTurn` — settle every registered trigger on the
same context (`Promise.allSettled`), then collect the fulfilled non-null
events in registry order. -/
def processTurn (triggers : List TriggerFun) (ctx : TurnContext) : List MCEvent :=
  collectFulfilled (triggers.map (fun t => t ctx))

/-- Modelled from the spec's words (§4.5 / C10): the sequence of non-null
results of the successfully completing triggers, ordered by registration
position. -/
def eventsInRegistrationOrder (triggers : List TriggerFun) (ctx : TurnContext) : List MCEvent :=
  triggers.filterMap (fun t =>
    match t ctx with
    | Except.ok (some e) => some e
    | _ => none)

/-! ## Quiz triggers (`events/quiz-rule.ts`, `events/quiz-agent.ts`)

Both triggers call the external LLM; those calls are oracle parameters:
`gen` is the settled result of `generateQuiz(history)` and `judge` the
settled `response.text` of the agent's decision call. -/

/-- `QuizRuleTrigger.onTurn` — fire on positive multiples of
`TRIGGER_EVERY_N_MESSAGES`, suppress when generation is empty. -/
def quizRuleOnTurn (gen : List Message → List QuizQuestion) (ctx : TurnContext) :
    Option MCEvent :=
  if ctx.messageCount ≤ 0 ∨ ctx.messageCount % TRIGGER_EVERY_N_MESSAGES ≠ 0 then none
  else
    let questions := gen ctx.history
    if questions.length = 0 then none
    else some (MCEvent.quiz questions)

/-- `ctx.messageCount - this.lastTriggeredAt < this.minGap` with the
initial `lastTriggeredAt = -Infinity` modelled as `none` (the gap test is
then never satisfied). -/
def gapTooSmall (minGap : Int) (lastTriggeredAt : Option Int) (count : Nat) : Bool :=
  match lastTriggeredAt with
  | none => false
  | some t => decide ((count : Int) - t < minGap)

/-- `.trim().toUpperCase()` — strip surrounding whitespace and upper-case,
over the character list. -/
def upperTrim (s : String) : String :=
  String.mk
    (((s.data.dropWhile Char.isWhitespace).reverse.dropWhile Char.isWhitespace).reverse.map
      Char.toUpper)

/-- `QuizAgentTrigger.onTurn` — gate on a minimum of 4 user messages and
the minimum gap since the last quiz, ask the judgment oracle, require the
literal answer `YES` (trimmed, upper-cased), generate, suppress empty
generation, and update `lastTriggeredAt` only on success.  Returns the new
`lastTriggeredAt` and the optional event. -/
def quizAgentOnTurn (minGap : Int) (judge : TurnContext → Option String)
    (gen : List Message → List QuizQuestion) (lastTriggeredAt : Option Int)
    (ctx : TurnContext) : Option Int × Option MCEvent :=
  if ctx.messageCount < 4 ∨ gapTooSmall minGap lastTriggeredAt ctx.messageCount = true then
    (lastTriggeredAt, none)
  else
    let decision := (judge ctx).map upperTrim
    if decision ≠ some "YES" then (lastTriggeredAt, none)
    else
      let questions := gen ctx.history
      if questions.length = 0 then (lastTriggeredAt, none)
      else (some (ctx.messageCount : Int), some (MCEvent.quiz questions))

/-! ## Quiz generation (`gemini.ts`, `generateQuiz`)

The model call's text result and `JSON.parse` are oracle parameters; what
is embedded is the fence-stripping and the parse-failure recovery. -/

/-- The backtick character. -/
def btick : Char := Char.ofNat 96

/-- `raw.replace(/^```(?:json)?\s*\/i, "")` — drop a leading code fence,
an optional case-insensitive `json` tag and following whitespace. -/
def dropLeadingFence (l : List Char) : List Char :=
  match l with
  | a :: b :: c :: rest =>
      if a = btick ∧ b = btick ∧ c = btick then
        let r1 := if (rest.take 4).map Char.toLower = ['j', 's', 'o', 'n']
                  then rest.drop 4 else rest
        r1.dropWhile Char.isWhitespace
      else l
  | _ => l

/-- `.replace(/```\s*$/, "")` — drop a trailing code fence followed only
by whitespace. -/
def dropTrailingFence (l : List Char) : List Char :=
  let r := l.reverse
  let r1 := r.dropWhile Char.isWhitespace
  match r1 with
  | a :: b :: c :: rest =>
      if a = btick ∧ b = btick ∧ c = btick then rest.reverse else l
  | _ => l

/-- `const raw = result.text?.trim() ?? ""` followed by the two fence
replacements and the final `.trim()` producing `cleaned`. -/
def cleanQuizOutput (text : Option String) : String :=
  let raw := (text.map String.trim).getD ""
  (String.mk (dropTrailingFence (dropLeadingFence raw.data))).trim

/-- `generateQuiz` — strip fences, `JSON.parse` the cleaned text, and
recover from a parse failure by returning the empty list.  `parse` is the
`JSON.parse … as QuizQuestion[]` oracle (`none` = the parse threw). -/
def generateQuiz (parse : String → Option (List QuizQuestion)) (text : Option String) :
    List QuizQuestion :=
  match parse (cleanQuizOutput text) with
  | some qs => qs
  | none => []

/-! ## Turn completion (`ws-handler.ts`, `saveTurnAndDispatchEvents`) -/

/-- `saveTurnAndDispatchEvents` up to the point the Event Engine is
invoked: guard on a session and a non-empty transcript, persist the user
utterance and the AI response, then read back the user-message count and
the recent history and build the `TurnContext`.  `tU` and `tA` are the
`Date.now()` readings of the two inserts. -/
def saveTurn (db : DB) (sessionId : Option String) (transcript ai : String)
    (tU tA : Nat) : DB × Option TurnContext :=
  match sessionId with
  | none => (db, none)
  | some sid =>
      if transcript = "" then (db, none)
      else
        let db1 := addMessage db sid Role.user transcript tU
        let db2 := addMessage db1 sid Role.assistant ai tA
        let messageCount := getUserMessageCount db2 sid
        let history := getMessages db2 sid HISTORY_WINDOW
        (db2, some ⟨sid, transcript, ai, messageCount, history⟩)

/-- Run a sequence of completed turns (user transcript, AI response, and
the two inserts' `Date.now()` readings), collecting the turn contexts
handed to the Event Engine. -/
def runTurns : DB → Option String → List (String × String × Nat × Nat) → DB × List TurnContext
  | db, _, [] => (db, [])
  | db, sid, (u, a, tU, tA) :: rest =>
      let r := saveTurn db sid u a tU tA
      let tail := runTurns r.1 sid rest
      (tail.1, (match r.2 with | some ctx => [ctx] | none => []) ++ tail.2)

/-! ## Turn Recorder lemmas -/

section DBLemmas

lemma insertTsDesc_perm (x : MsgRow) (l : List MsgRow) :
    (insertTsDesc x l).Perm (x :: l) := by
  induction l with
  | nil => exact List.Perm.refl _
  | cons y ys ih =>
      simp only [insertTsDesc]
      split
      · exact List.Perm.refl _
      · exact (ih.cons y).trans (List.Perm.swap x y ys)

lemma sortByTsDesc_perm (l : List MsgRow) : (sortByTsDesc l).Perm l := by
  induction l with
  | nil => exact List.Perm.refl _
  | cons x xs ih => exact (insertTsDesc_perm x (sortByTsDesc xs)).trans (ih.cons x)

lemma insertTsDesc_sorted (x : MsgRow) (l : List MsgRow) (h : sortedTsDesc l) :
    sortedTsDesc (insertTsDesc x l) := by
  unfold sortedTsDesc at h ⊢
  induction l with
  | nil => simp [insertTsDesc]
  | cons y ys ih =>
      rw [List.pairwise_cons] at h
      simp only [insertTsDesc]
      split
      · next hyx =>
          rw [List.pairwise_cons]
          refine ⟨?_, List.pairwise_cons.mpr h⟩
          intro b hb
          rcases List.mem_cons.mp hb with h1 | h1
          · rw [h1]; exact hyx
          · exact le_trans (h.1 b h1) hyx
      · next hyx =>
          rw [List.pairwise_cons]
          refine ⟨?_, ih h.2⟩
          intro b hb
          have hb2 : b ∈ x :: ys := (insertTsDesc_perm x ys).subset hb
          rcases List.mem_cons.mp hb2 with h1 | h1
          · rw [h1]; omega
          · exact h.1 b h1

lemma sortByTsDesc_sorted (l : List MsgRow) : sortedTsDesc (sortByTsDesc l) := by
  induction l with
  | nil => simp [sortByTsDesc, sortedTsDesc]
  | cons x xs ih => exact insertTsDesc_sorted x _ ih

/-- The executable `getMessages` (timestamp-descending insertion sort) is
one admissible refinement of the query contract. -/
lemma getMessages_admissible (db : DB) (sid : String) (limit : Nat) :
    sqlReadAdmissible db sid limit (getMessages db sid limit) :=
  ⟨sortByTsDesc (db.rows.filter (fun r => r.sessionId == sid)),
    sortByTsDesc_perm _, sortByTsDesc_sorted _, rfl⟩

/-- A timestamp-sorted permutation of a strictly-timestamp-decreasing list
is that list itself: when all timestamps are distinct, the query contract
determines the output order completely. -/
lemma perm_sorted_unique : ∀ (q p : List MsgRow),
    p.Perm q →
    sortedTsDesc p →
    q.Pairwise (fun a b => b.timestamp < a.timestamp) →
    p = q := by
  intro q
  induction q with
  | nil =>
      intro p hperm _ _
      exact hperm.eq_nil
  | cons x q2 ih =>
      intro p hperm hsorted hq
      cases p with
      | nil =>
          have := hperm.length_eq
          simp at this
      | cons x2 p2 =>
          unfold sortedTsDesc at hsorted
          rw [List.pairwise_cons] at hsorted hq
          have hx2mem : x2 ∈ x :: q2 := hperm.subset (List.mem_cons_self x2 p2)
          have hxx : x2 = x := by
            rcases List.mem_cons.mp hx2mem with h1 | h1
            · exact h1
            · exfalso
              have hlt : x2.timestamp < x.timestamp := hq.1 x2 h1
              have hxmem : x ∈ x2 :: p2 := hperm.symm.subset (List.mem_cons_self x q2)
              rcases List.mem_cons.mp hxmem with h2 | h2
              · rw [h2] at hlt; omega
              · have hle := hsorted.1 x h2
                omega
          subst hxx
          have hp2 : p2.Perm q2 := hperm.cons_inv
          rw [ih p2 hp2 hsorted.2 hq.2]

lemma appendMessages_rows : ∀ (msgs : List (Role × String × Nat)) (db : DB) (sid : String),
    (appendMessages db sid msgs).rows = db.rows ++ mkRows sid msgs := by
  intro msgs
  induction msgs with
  | nil => intro db sid; simp [appendMessages, mkRows]
  | cons m rest ih =>
      intro db sid
      obtain ⟨r, c, t⟩ := m
      simp only [appendMessages, mkRows, List.map_cons, ih, addMessage, List.append_assoc,
        List.singleton_append]

lemma mkRows_sessionId (msgs : List (Role × String × Nat)) (sid : String) :
    ∀ r ∈ mkRows sid msgs, r.sessionId = sid := by
  intro r hr
  simp only [mkRows, List.mem_map] at hr
  obtain ⟨m, -, hm⟩ := hr
  rw [← hm]

lemma mkRows_pairwise_lt (msgs : List (Role × String × Nat)) (sid : String)
    (h : msgs.Pairwise (fun m m2 => m.2.2 < m2.2.2)) :
    (mkRows sid msgs).Pairwise (fun a b => a.timestamp < b.timestamp) := by
  simp only [mkRows, List.pairwise_map]
  exact h

@[simp] lemma mkRows_length (msgs : List (Role × String × Nat)) (sid : String) :
    (mkRows sid msgs).length = msgs.length := by
  simp [mkRows]

/-- Each message has exactly one of the two roles, so the user-role and
assistant-role sublists partition the batch. -/
lemma filter_role_partition : ∀ msgs : List (Role × String × Nat),
    (msgs.filter (fun m => m.1 == Role.user)).length
      + (msgs.filter (fun m => m.1 == Role.assistant)).length = msgs.length := by
  intro msgs
  induction msgs with
  | nil => rfl
  | cons m rest ih =>
      obtain ⟨rl, c, t⟩ := m
      cases rl <;> simp [List.filter_cons, ih] <;> omega

lemma getUserMessageCount_addMessage_user (db : DB) (sid : String) (c : String) (t : Nat) :
    getUserMessageCount (addMessage db sid Role.user c t) sid
      = getUserMessageCount db sid + 1 := by
  simp [getUserMessageCount, addMessage, List.filter_append]

lemma getUserMessageCount_addMessage_assistant (db : DB) (sid : String) (c : String) (t : Nat) :
    getUserMessageCount (addMessage db sid Role.assistant c t) sid
      = getUserMessageCount db sid := by
  simp [getUserMessageCount, addMessage, List.filter_append]

lemma getUserMessageCount_of_fresh (db : DB) (sid : String)
    (h : ∀ r ∈ db.rows, r.sessionId ≠ sid) : getUserMessageCount db sid = 0 := by
  simp only [getUserMessageCount, List.length_eq_zero]
  rw [List.filter_eq_nil_iff]
  intro r hr
  simp [h r hr]

/-- Counts handed to the engine by successive turns: starting from a
user-message count of `c`, the turn contexts carry `c+1, c+2, …` —
independently of the inserts' timestamps. -/
lemma runTurns_counts : ∀ (turns : List (String × String × Nat × Nat)) (db : DB) (s : String)
    (c : Nat),
    getUserMessageCount db s = c →
    (∀ t ∈ turns, t.1 ≠ "") →
    ((runTurns db (some s) turns).2).map TurnContext.messageCount
      = (List.range turns.length).map (fun i => c + (i + 1)) := by
  intro turns
  induction turns with
  | nil => intro db s c hc hne; simp [runTurns]
  | cons t rest ih =>
      intro db s c hc hne
      obtain ⟨u, a, tU, tA⟩ := t
      have hu : u ≠ "" := hne (u, a, tU, tA) (List.mem_cons_self _ _)
      have hcount : getUserMessageCount
          (addMessage (addMessage db s Role.user u tU) s Role.assistant a tA) s = c + 1 := by
        rw [getUserMessageCount_addMessage_assistant, getUserMessageCount_addMessage_user, hc]
      simp only [runTurns, saveTurn, if_neg hu]
      have ihr := ih (addMessage (addMessage db s Role.user u tU) s Role.assistant a tA) s
        (c + 1) hcount (fun t2 ht2 => hne t2 (List.mem_cons_of_mem _ ht2))
      simp only [List.singleton_append, List.map_cons, hcount, ihr,
        List.length_cons, List.range_succ_eq_map, List.map_map]
      refine List.cons_eq_cons.mpr ⟨by omega, ?_⟩
      apply List.map_congr_left
      intro i _
      simp only [Function.comp_apply]
      omega

end DBLemmas

/-! ## Event Engine lemmas -/

lemma collectFulfilled_append (l1 l2 : List (Except String (Option MCEvent))) :
    collectFulfilled (l1 ++ l2) = collectFulfilled l1 ++ collectFulfilled l2 := by
  induction l1 with
  | nil => rfl
  | cons a rest ih =>
      cases a with
      | error e => simpa [collectFulfilled] using ih
      | ok v => cases v <;> simp [collectFulfilled, ih]

/-! ## Claims -/

/-- C1, counterexample: the claim "no two consecutive activityStart
signals are ever sent without an intervening activityEnd" fails on the
step sequence ⟨high-energy frame, provider turn completion, high-energy
frame⟩ — the turn-completion callback resets `isActivityActive` to false
without sending any end signal, so the next loud frame sends a second
activityStart with no activityEnd between them. -/
theorem C1_alternation_counterexample :
    ¬ (noConsecStarts (seProj (runSignals initConn
        [ConnStep.frame [232, 3], ConnStep.turnComplete, ConnStep.frame [232, 3]])) = true) := by
  decide

/-- C1, amended: in every step sequence from a fresh connection, between
any two consecutive activityStart signals there is an activityEnd signal
or a provider turn-completion reset (and dropping the reset markers from
the annotated trace yields exactly the start/end signals actually sent to
the provider).  In particular strict start/end alternation holds whenever
no turn-completion callback intervenes. -/
theorem C1_alternation_amended (steps : List ConnStep) :
    noConsecStarts (runAnnotated initConn steps) = true ∧
    removeResets (runAnnotated initConn steps) = seProj (runSignals initConn steps) :=
  ⟨(runAnnotated_sound steps initConn).1, removeResets_runAnnotated steps initConn⟩

/-- C2, counterexample: the rule trigger does not emit "iff the count is a
positive multiple of 5" — at count 5 with a generation call that yields
zero questions, no event is emitted even though 5 is a positive multiple
of the interval. -/
theorem C2_rule_trigger_counterexample :
    ¬ (((quizRuleOnTurn (fun _ => []) ⟨"s", "u", "a", 5, []⟩).isSome = true) ↔
        (0 < 5 ∧ 5 % TRIGGER_EVERY_N_MESSAGES = 0)) := by
  decide

/-- C2, amended: `QuizRuleTrigger.onTurn` emits a quiz event iff the
cumulative user-message count is a positive multiple of
`TRIGGER_EVERY_N_MESSAGES` (= 5) and quiz generation yields at least one
question; so with non-empty generation it fires at counts 5, 10, 15 and
never at 1, 4, 6, 9. -/
theorem C2_rule_trigger_iff (gen : List Message → List QuizQuestion) (ctx : TurnContext) :
    (quizRuleOnTurn gen ctx).isSome = true ↔
      (0 < ctx.messageCount ∧ ctx.messageCount % TRIGGER_EVERY_N_MESSAGES = 0 ∧
        gen ctx.history ≠ []) := by
  simp only [quizRuleOnTurn]
  split
  · next h =>
      simp only [Option.isSome_none, Bool.false_eq_true, false_iff]
      rintro ⟨hpos, hmod, -⟩
      rcases h with h | h
      · omega
      · exact h hmod
  · next h =>
      push_neg at h
      obtain ⟨hpos, hmod⟩ := h
      split
      · next hlen =>
          simp only [Option.isSome_none, Bool.false_eq_true, false_iff]
          rintro ⟨-, -, hne⟩
          exact hne (List.length_eq_zero.mp hlen)
      · next hlen =>
          simp only [Option.isSome_some, true_iff]
          exact ⟨by omega, hmod, fun hnil => hlen (by simp [hnil])⟩

/-- C3, counterexample: with real millisecond `Date.now()`, the two
back-to-back inserts of one turn may carry the same timestamp (the clock
readings 5, 5 are a legitimate nondecreasing trace); `ORDER BY timestamp
DESC` then leaves the relative order of the tied rows unspecified, and the
store may return them in insertion order — an admissible output that is
not the last-L-appended-in-reverse order the claim asserts. -/
theorem C3_roundtrip_counterexample :
    sqlReadAdmissible (appendMessages ⟨[]⟩ "s"
        [(Role.user, "a", 5), (Role.assistant, "b", 5)]) "s" 2
      [⟨Role.user, "a", 5⟩, ⟨Role.assistant, "b", 5⟩] ∧
    [(⟨Role.user, "a", 5⟩ : Message), ⟨Role.assistant, "b", 5⟩]
      ≠ (((mkRows "s" [(Role.user, "a", 5), (Role.assistant, "b", 5)]).map rowMsg).reverse).take 2 := by
  constructor
  · exact ⟨[⟨"s", Role.user, "a", 5⟩, ⟨"s", Role.assistant, "b", 5⟩],
      by decide, by unfold sortedTsDesc; decide, rfl⟩
  · decide

/-- C3, amended: appending N user and N assistant messages for a fresh
session **with strictly increasing timestamps** (the clock advanced
between inserts, so no two rows tie), every output the store may return
for a read with limit L ≤ 2N is exactly L messages, newest first — the
last L appended messages in reverse appending order.  With tied
timestamps the order among the tied rows is not guaranteed
(`C3_roundtrip_counterexample`). -/
theorem C3_history_roundtrip (db0 : DB) (sid : String)
    (msgs : List (Role × String × Nat)) (N L : Nat) (out : List Message)
    (hfresh : ∀ r ∈ db0.rows, r.sessionId ≠ sid)
    (hU : (msgs.filter (fun m => m.1 == Role.user)).length = N)
    (hA : (msgs.filter (fun m => m.1 == Role.assistant)).length = N)
    (_hN : 1 ≤ N) (hL : L ≤ 2 * N)
    (hinc : msgs.Pairwise (fun m m2 => m.2.2 < m2.2.2))
    (hadm : sqlReadAdmissible (appendMessages db0 sid msgs) sid L out) :
    out = (((mkRows sid msgs).map rowMsg).reverse).take L ∧ out.length = L := by
  obtain ⟨perm, hperm, hsorted, hout⟩ := hadm
  have hlen : msgs.length = 2 * N := by
    have := filter_role_partition msgs
    omega
  have hfilter : (appendMessages db0 sid msgs).rows.filter (fun r => r.sessionId == sid)
      = mkRows sid msgs := by
    rw [appendMessages_rows, List.filter_append]
    have h1 : db0.rows.filter (fun r => r.sessionId == sid) = [] := by
      rw [List.filter_eq_nil_iff]
      intro r hr
      simp [hfresh r hr]
    have h2 : (mkRows sid msgs).filter (fun r => r.sessionId == sid) = mkRows sid msgs := by
      rw [List.filter_eq_self]
      intro r hr
      simp [mkRows_sessionId msgs sid r hr]
    rw [h1, h2, List.nil_append]
  have hrev : ((mkRows sid msgs).reverse).Pairwise (fun a b => b.timestamp < a.timestamp) := by
    rw [List.pairwise_reverse]
    exact mkRows_pairwise_lt msgs sid hinc
  have hperm2 : perm.Perm ((mkRows sid msgs).reverse) := by
    rw [hfilter] at hperm
    exact hperm.trans (List.reverse_perm _).symm
  have hpeq : perm = (mkRows sid msgs).reverse :=
    perm_sorted_unique _ _ hperm2 hsorted hrev
  constructor
  · rw [hout, hpeq, List.map_take, List.map_reverse]
  · rw [hout, hpeq]
    simp only [List.length_map, List.length_take, List.length_reverse, mkRows_length]
    omega

/-- C3 witness at a concrete store: one user and one assistant message
with distinct timestamps, limit 2; the admissible output is forced to be
the two messages newest-first. -/
theorem C3_history_roundtrip_witness :
    (∀ r ∈ (⟨[]⟩ : DB).rows, r.sessionId ≠ "s") ∧
    sqlReadAdmissible (appendMessages ⟨[]⟩ "s"
        [(Role.user, "a", 0), (Role.assistant, "b", 1)]) "s" 2
      [⟨Role.assistant, "b", 1⟩, ⟨Role.user, "a", 0⟩] ∧
    ([(⟨Role.assistant, "b", 1⟩ : Message), ⟨Role.user, "a", 0⟩]
        = (((mkRows "s" [(Role.user, "a", 0), (Role.assistant, "b", 1)]).map rowMsg).reverse).take 2 ∧
      [(⟨Role.assistant, "b", 1⟩ : Message), ⟨Role.user, "a", 0⟩].length = 2) :=
  ⟨by simp,
    ⟨[⟨"s", Role.assistant, "b", 1⟩, ⟨"s", Role.user, "a", 0⟩], by decide,
      by unfold sortedTsDesc; decide, rfl⟩,
    C3_history_roundtrip ⟨[]⟩ "s" [(Role.user, "a", 0), (Role.assistant, "b", 1)] 1 2
      [⟨Role.assistant, "b", 1⟩, ⟨Role.user, "a", 0⟩]
      (by simp) (by decide) (by decide) (by decide) (by decide) (by decide)
      ⟨[⟨"s", Role.assistant, "b", 1⟩, ⟨"s", Role.user, "a", 0⟩], by decide,
        by unfold sortedTsDesc; decide, rfl⟩⟩

/-- C4: a failing trigger is excluded from `processTurn`'s result and
never prevents sibling triggers' results from being collected — inserting
a rejecting trigger anywhere in the registry leaves the collected events
of the other triggers unchanged, and `processTurn` itself still returns. -/
theorem C4_trigger_failure_isolation (ts1 ts2 : List TriggerFun) (bad : TriggerFun)
    (ctx : TurnContext) (msg : String) (hbad : bad ctx = Except.error msg) :
    processTurn (ts1 ++ bad :: ts2) ctx = processTurn ts1 ctx ++ processTurn ts2 ctx := by
  simp only [processTurn, List.map_append, List.map_cons, collectFulfilled_append, hbad]
  simp [collectFulfilled]

/-- C4 witness: one succeeding trigger, one failing trigger and one
null-returning trigger registered together. -/
theorem C4_trigger_failure_isolation_witness :
    ((fun _ => Except.error "boom" : TriggerFun) ⟨"s", "u", "a", 1, []⟩ = Except.error "boom") ∧
    processTurn (([fun _ => Except.ok (some (MCEvent.quiz [⟨"q1", "Q", ["A"], 0, 20⟩]))]
          ++ (fun _ => Except.error "boom") :: [fun _ => Except.ok none]) : List TriggerFun)
        ⟨"s", "u", "a", 1, []⟩
      = processTurn ([fun _ => Except.ok (some (MCEvent.quiz [⟨"q1", "Q", ["A"], 0, 20⟩]))] :
            List TriggerFun) ⟨"s", "u", "a", 1, []⟩
        ++ processTurn ([fun _ => Except.ok none] : List TriggerFun) ⟨"s", "u", "a", 1, []⟩ :=
  ⟨rfl, C4_trigger_failure_isolation _ _ _ _ "boom" rfl⟩

/-- C5: every quiz event either trigger emits carries at least one
question — when generation yields zero questions both triggers return no
event, so an empty quiz is never handed to dispatch. -/
theorem C5_quiz_events_nonempty :
    (∀ (gen : List Message → List QuizQuestion) (ctx : TurnContext) (e : MCEvent),
        quizRuleOnTurn gen ctx = some e → e.payload ≠ []) ∧
    (∀ (minGap : Int) (judge : TurnContext → Option String)
        (gen : List Message → List QuizQuestion) (last : Option Int) (ctx : TurnContext)
        (st : Option Int) (e : MCEvent),
        quizAgentOnTurn minGap judge gen last ctx = (st, some e) → e.payload ≠ []) := by
  constructor
  · intro gen ctx e h
    simp only [quizRuleOnTurn] at h
    split at h
    · exact absurd h (by simp)
    · split at h
      · exact absurd h (by simp)
      · next hlen =>
          injection h with h
          subst h
          simp only [MCEvent.payload]
          intro hnil
          exact hlen (by simp [hnil])
  · intro minGap judge gen last ctx st e h
    simp only [quizAgentOnTurn] at h
    split at h
    · simp at h
    · split at h
      · simp at h
      · split at h
        · simp at h
        · next hlen =>
            rw [Prod.mk.injEq] at h
            obtain ⟨-, h2⟩ := h
            injection h2 with h2
            subst h2
            simp only [MCEvent.payload]
            intro hnil
            exact hlen (by simp [hnil])

/-- C5 witness: both triggers emitting at count 5 with a one-question
generation result; the emitted payloads are non-empty. -/
theorem C5_quiz_events_nonempty_witness :
    (quizRuleOnTurn (fun _ => [⟨"q1", "Q", ["A"], 0, 20⟩]) ⟨"s", "u", "a", 5, []⟩
        = some (MCEvent.quiz [⟨"q1", "Q", ["A"], 0, 20⟩]) ∧
      (MCEvent.quiz [(⟨"q1", "Q", ["A"], 0, 20⟩ : QuizQuestion)]).payload ≠ []) ∧
    (quizAgentOnTurn 3 (fun _ => some "yes ") (fun _ => [⟨"q1", "Q", ["A"], 0, 20⟩]) none
        ⟨"s", "u", "a", 5, []⟩
        = (some 5, some (MCEvent.quiz [⟨"q1", "Q", ["A"], 0, 20⟩])) ∧
      (MCEvent.quiz [(⟨"q1", "Q", ["A"], 0, 20⟩ : QuizQuestion)]).payload ≠ []) :=
  ⟨⟨by decide, C5_quiz_events_nonempty.1 (fun _ => [⟨"q1", "Q", ["A"], 0, 20⟩])
      ⟨"s", "u", "a", 5, []⟩ (MCEvent.quiz [⟨"q1", "Q", ["A"], 0, 20⟩]) (by decide)⟩,
    ⟨by decide, C5_quiz_events_nonempty.2 3 (fun _ => some "yes ")
      (fun _ => [⟨"q1", "Q", ["A"], 0, 20⟩]) none ⟨"s", "u", "a", 5, []⟩ (some 5)
      (MCEvent.quiz [⟨"q1", "Q", ["A"], 0, 20⟩]) (by decide)⟩⟩

/-- C6: when the cleaned provider output fails to parse (malformed or
non-JSON, fenced or not), `generateQuiz` returns the empty list instead of
raising, and the rule trigger consequently emits no event for that turn. -/
theorem C6_generate_quiz_recovers (parse : String → Option (List QuizQuestion))
    (llm : List Message → Option String) (ctx : TurnContext)
    (hfail : parse (cleanQuizOutput (llm ctx.history)) = none) :
    generateQuiz parse (llm ctx.history) = [] ∧
    quizRuleOnTurn (fun h => generateQuiz parse (llm h)) ctx = none := by
  have hz : generateQuiz parse (llm ctx.history) = [] := by
    simp only [generateQuiz, hfail]
  refine ⟨hz, ?_⟩
  simp only [quizRuleOnTurn]
  split
  · rfl
  · simp [hz]

/-- C6 witness: fenced markdown around non-JSON text with a parser that
rejects it — no questions and no event. -/
theorem C6_generate_quiz_recovers_witness :
    ((fun _ => (none : Option (List QuizQuestion)))
        (cleanQuizOutput (some "```json not-json```")) = none) ∧
    (generateQuiz (fun _ => none) (some "```json not-json```") = [] ∧
      quizRuleOnTurn (fun _ => generateQuiz (fun _ => none) (some "```json not-json```"))
        ⟨"s", "u", "a", 5, []⟩ = none) :=
  ⟨rfl, C6_generate_quiz_recovers (fun _ => none) (fun _ => some "```json not-json```")
    ⟨"s", "u", "a", 5, []⟩ rfl⟩

/-- C7: for a fresh session, the user-message count placed in the
`TurnContext` of the k-th completed recorded turn is exactly k — it counts
every user-role message appended so far including the one appended in the
same turn, computed before the Event Engine is invoked. -/
theorem C7_turn_context_count (db0 : DB) (s : String)
    (turns : List (String × String × Nat × Nat))
    (hfresh : ∀ r ∈ db0.rows, r.sessionId ≠ s)
    (hne : ∀ t ∈ turns, t.1 ≠ "") :
    ((runTurns db0 (some s) turns).2).map TurnContext.messageCount
      = (List.range turns.length).map (fun i => i + 1) := by
  have h0 : getUserMessageCount db0 s = 0 := getUserMessageCount_of_fresh db0 s hfresh
  simpa using runTurns_counts turns db0 s 0 h0 hne

/-- C7 witness: two completed turns on a fresh store carry counts 1, 2 —
even with tied timestamps (both inserts of the first turn at clock 100). -/
theorem C7_turn_context_count_witness :
    (∀ r ∈ (⟨[]⟩ : DB).rows, r.sessionId ≠ "s") ∧
    ((runTurns ⟨[]⟩ (some "s") [("hi", "yo", 100, 100), ("ok", "go", 100, 105)]).2).map
        TurnContext.messageCount
      = (List.range 2).map (fun i => i + 1) :=
  ⟨by simp, C7_turn_context_count ⟨[]⟩ "s" [("hi", "yo", 100, 100), ("ok", "go", 100, 105)]
    (by simp) (by decide)⟩

/-- C8: with an open provider session, an inbound audio frame is forwarded
to the provider iff the activity state is active after the frame's energy
has been processed — regardless of the frame's own energy; frames arriving
while the state stays inactive are dropped. -/
theorem C8_forward_iff_active (s : ConnState) (buf : List Nat) (h : s.sessionOpen = true) :
    Signal.audioForward buf ∈ (connStep s (ConnStep.frame buf)).2 ↔
      (connStep s (ConnStep.frame buf)).1.isActivityActive = true := by
  obtain ⟨act, tim, ses⟩ := s
  simp only at h
  subst h
  cases hE : highEnergy buf <;> cases act <;> simp [connStep, hE]

/-- C8 witness: a loud frame on a fresh open connection is forwarded and
the state is active afterwards. -/
theorem C8_forward_iff_active_witness :
    initConn.sessionOpen = true ∧
    (Signal.audioForward [232, 3] ∈ (connStep initConn (ConnStep.frame [232, 3])).2 ↔
      (connStep initConn (ConnStep.frame [232, 3])).1.isActivityActive = true) :=
  ⟨rfl, C8_forward_iff_active initConn [232, 3] rfl⟩

/-- C9: `calcPCMRMS` computes the root-mean-square of the decoded 16-bit
signed little-endian samples — a non-negative real — and returns 0 when
the buffer holds no complete sample. -/
theorem C9_rms_spec (buf : List Nat) :
    calcPCMRMS buf = specRMS (decodeInt16LE buf) ∧
    0 ≤ calcPCMRMS buf ∧
    (decodeInt16LE buf = [] → calcPCMRMS buf = 0) := by
  have hlen := decodeInt16LE_length buf
  have hsum := sumSquaresBytes_eq buf
  refine ⟨?_, ?_, ?_⟩
  · simp only [calcPCMRMS, specRMS, hlen, hsum]
  · simp only [calcPCMRMS]
    split
    · exact le_refl 0
    · exact Real.sqrt_nonneg _
  · intro hdec
    have hz : buf.length / 2 = 0 := by
      rw [← hlen, hdec]
      rfl
    simp [calcPCMRMS, hz]

/-- C9 witness: a single stray byte holds zero complete samples and has
RMS 0. -/
theorem C9_rms_spec_witness : decodeInt16LE [37] = [] ∧ calcPCMRMS [37] = 0 :=
  ⟨rfl, (C9_rms_spec [37]).2.2 rfl⟩

/-- C10: `processTurn` preserves trigger registration order — its result
is exactly the sequence of non-null fulfilled results, ordered by the
position at which each trigger was registered. -/
theorem C10_events_in_registration_order (triggers : List TriggerFun) (ctx : TurnContext) :
    processTurn triggers ctx = eventsInRegistrationOrder triggers ctx := by
  unfold processTurn eventsInRegistrationOrder
  induction triggers with
  | nil => rfl
  | cons t ts ih =>
      simp only [List.map_cons, List.filterMap_cons]
      cases ht : t ctx with
      | error e => simpa [collectFulfilled, ht] using ih
      | ok v =>
          cases v with
          | none => simpa [collectFulfilled, ht] using ih
          | some e => simp [collectFulfilled, ht, ih]
